import Mathlib

/-!
# Verification of the smart-notes client

Shallow embedding of the logic of `src/App.jsx` (a single-page notes client):
the client-side search filter, tag parsing, the save / delete / toggle-pin
handlers, the edit-dialog prefill, and the search debounce.  JavaScript
strings are modelled as lists of characters; the asynchronous outcome of a
remote write is an explicit boolean parameter (`success`), and the state
updates that JavaScript skips when an awaited call throws are likewise
skipped in the model.
-/

set_option maxHeartbeats 1000000

namespace SmartNotes

/-- JavaScript strings, modelled as lists of characters. -/
abbrev JSStr := List Char

/-- Model of JavaScript String.prototype.toLowerCase (character-wise case mapping). -/
def toLower (s : JSStr) : JSStr := s.map Char.toLower

/-- Model of JavaScript String.prototype.trim: strip leading and trailing whitespace. -/
def trim (s : JSStr) : JSStr :=
  ((s.dropWhile Char.isWhitespace).reverse.dropWhile Char.isWhitespace).reverse

/-- Model of JavaScript s.includes(sub): does sub occur contiguously in s. -/
def includes (s sub : JSStr) : Bool := decide (sub <:+: s)

/-- Model of JavaScript s.split(","): the segments of s between commas.
Splitting the empty string yields one empty segment, as in JavaScript. -/
def splitComma : JSStr → List JSStr
  | [] => [[]]
  | c :: rest =>
    if c = ',' then [] :: splitComma rest
    else
      match splitComma rest with
      | [] => [[c]]
      | s :: ss => (c :: s) :: ss

/-- Model of JavaScript arr.join(", "), used by handleEditNote to prefill the
tags field (App.jsx line 129). -/
def joinCommaSpace : List JSStr → JSStr
  | [] => []
  | [t] => t
  | t :: ts => t ++ ',' :: ' ' :: joinCommaSpace ts

/-- A note document as the client sees it (App.jsx lines 70-73 and the fields
written by the handlers).  Timestamps are modelled as naturals; `id` is the
store-assigned document identifier. -/
structure Note where
  id : Nat
  title : JSStr
  body : JSStr
  tags : List JSStr
  pinned : Bool
  createdAt : Nat
  updatedAt : Nat
deriving Repr, DecidableEq, Inhabited

/-- `noteMatches q note`: the predicate of the search filter
(App.jsx lines 89-95). -/
def noteMatches (searchQuery : JSStr) (note : Note) : Bool :=
  includes (toLower note.title) (toLower searchQuery) ||
  includes (toLower note.body) (toLower searchQuery) ||
  note.tags.any (fun tag => includes (toLower tag) (toLower searchQuery))

/-- The filter effect (App.jsx lines 83-97): an empty-after-trim query shows
the full list; otherwise keep the notes whose lowercased title, body or some
tag contains the lowercased query. -/
def filterNotes (allNotes : List Note) (searchQuery : JSStr) : List Note :=
  if trim searchQuery = [] then allNotes
  else allNotes.filter (noteMatches searchQuery)

/-- parseTags (App.jsx lines 100-105): split on commas, trim and lowercase
each segment, drop empty segments. -/
def parseTags (tagsString : JSStr) : List JSStr :=
  ((splitComma tagsString).map (fun tag => toLower (trim tag))).filter
    (fun tag => decide (0 < tag.length))

/-- The transient fields of the create/edit dialog (App.jsx line 51). -/
structure EditorFields where
  title : JSStr
  body : JSStr
  tags : JSStr
deriving Repr, DecidableEq

/-- The dialog-related component state (App.jsx lines 50-56). -/
structure AppState where
  openDialog : Bool
  newNote : EditorFields
  editingNoteId : Option Nat
  deleteDialogOpen : Bool
  noteToDelete : Option Note
deriving Repr, DecidableEq

/-- A write issued to the remote store.  Field values carried by the
operation are exactly the ones the handlers pass; `updatedAt`/`createdAt`
are server-assigned and therefore not part of the operation payload. -/
inductive StoreOp where
  | createNote (title body : JSStr) (tags : List JSStr)
  | updateNote (id : Nat) (title body : JSStr) (tags : List JSStr)
  | togglePinOp (id : Nat) (newPinned : Bool)
  | deleteNote (id : Nat)
deriving Repr, DecidableEq

/-- The body payload of a create or update operation, if it has one. -/
def opBody : StoreOp → Option JSStr
  | .createNote _ b _ => some b
  | .updateNote _ _ b _ => some b
  | .togglePinOp _ _ => none
  | .deleteNote _ => none

/-- handleSaveNote (App.jsx lines 135-165).  Returns the successor state and
the list of store operations issued.  `success` is the outcome of the awaited
write: when it throws, the state updates after the `await` are skipped (the
error is only logged). -/
def handleSaveNote (s : AppState) (success : Bool) : AppState × List StoreOp :=
  if trim s.newNote.title = [] then (s, [])
  else
    let tags := parseTags s.newNote.tags
    match s.editingNoteId with
    | some noteId =>
      let ops := [StoreOp.updateNote noteId (trim s.newNote.title) (trim s.newNote.body) tags]
      if success then
        ({ s with editingNoteId := none, openDialog := false,
                  newNote := ⟨[], [], []⟩ }, ops)
      else (s, ops)
    | none =>
      let ops := [StoreOp.createNote (trim s.newNote.title) (trim s.newNote.body) tags]
      if success then
        ({ s with openDialog := false, newNote := ⟨[], [], []⟩ }, ops)
      else (s, ops)

/-- handleDeleteNote (App.jsx lines 178-187): with no bound candidate it is a
no-op; otherwise it issues the delete, and only when the awaited delete
succeeds does it close the dialog and clear the candidate — on failure the
error is logged and both state updates are skipped. -/
def handleDeleteNote (s : AppState) (success : Bool) : AppState × List StoreOp :=
  match s.noteToDelete with
  | none => (s, [])
  | some note =>
    if success then
      ({ s with deleteDialogOpen := false, noteToDelete := none },
       [StoreOp.deleteNote note.id])
    else (s, [StoreOp.deleteNote note.id])

/-- handleTogglePin (App.jsx lines 113-123): issues an update that sets
`pinned` to the negation of the `currentPinned` argument and refreshes
`updatedAt` (server timestamp). -/
def handleTogglePin (noteId : Nat) (currentPinned : Bool) : StoreOp :=
  .togglePinOp noteId (!currentPinned)

/-- handleEditNote (App.jsx lines 125-133): prefill the dialog fields from
the note (tags joined with a comma and space), bind the note id, open. -/
def handleEditNote (s : AppState) (note : Note) : AppState :=
  { s with newNote := ⟨note.title, note.body, joinCommaSpace note.tags⟩,
           editingNoteId := some note.id,
           openDialog := true }

/-- Modelled from the spec: the remote store's write semantics (§6):
update-document overwrites exactly the named fields of the document with the
given id, leaving every other field and every other document unchanged;
`serverTimestamp` resolves to `now`; add-document appends a fresh document
with store-assigned id `freshId` and both timestamps set to `now`;
delete-document removes the document with the given id. -/
def applyOp (store : List Note) (now freshId : Nat) : StoreOp → List Note
  | .togglePinOp noteId p =>
    store.map (fun n => if n.id = noteId
      then { n with pinned := p, updatedAt := now } else n)
  | .updateNote noteId t b tg =>
    store.map (fun n => if n.id = noteId
      then { n with title := t, body := b, tags := tg, updatedAt := now } else n)
  | .createNote t b tg => store ++ [⟨freshId, t, b, tg, false, now, now⟩]
  | .deleteNote noteId => store.filter (fun n => !(n.id == noteId))

/-- The display ordering key of the subscription query (App.jsx lines 62-67):
pinned descending, then updatedAt descending.  `displayLE a b` means a is
displayed at or above b. -/
def displayLE (a b : Note) : Prop :=
  if a.pinned = b.pinned then b.updatedAt ≤ a.updatedAt else a.pinned = true

instance : DecidableRel displayLE := fun a b => by unfold displayLE; infer_instance

instance : IsTotal Note displayLE where
  total a b := by
    unfold displayLE
    rcases ha : a.pinned <;> rcases hb : b.pinned <;> simp [ha, hb] <;>
      exact Nat.le_total b.updatedAt a.updatedAt

instance : IsTrans Note displayLE where
  trans a b c hab hbc := by
    unfold displayLE at *
    rcases ha : a.pinned <;> rcases hb : b.pinned <;> rcases hc : c.pinned <;>
      simp_all <;> omega

/-- Modelled from the spec: every snapshot the live subscription delivers is
the full result set sorted by the query's ordering key (§4.1, §6
subscribe-with-order).  The sort itself happens in the external store; the
model sorts the documents by the key the query requests. -/
def deliverSnapshot (docs : List Note) : List Note :=
  List.insertionSort displayLE docs

/-- The debounce delay of the search input (App.jsx line 198). -/
def debounceDelay : Nat := 300

/-- Model of handleSearchChange (App.jsx lines 194-199) over a whole
interaction: the input is the list of (time, value) pairs at which the
change handler ran, in time order.  Each call clears any pending timeout and
schedules a new one `debounceDelay` later, so a call's timeout fires (and its
value reaches the filter) exactly when no further call happens strictly
within the delay; the last call's timeout always fires.  The result is the
list of filter evaluations actually triggered, in order, with their query
values. -/
def debounceRuns : List (Nat × JSStr) → List JSStr
  | [] => []
  | [(_, v)] => [v]
  | (t₁, v₁) :: (t₂, v₂) :: rest =>
    if t₂ < t₁ + debounceDelay then debounceRuns ((t₂, v₂) :: rest)
    else v₁ :: debounceRuns ((t₂, v₂) :: rest)

/-- Concrete note A of the ordering example: unpinned, updatedAt T1 = 1. -/
def noteA : Note := ⟨1, [], [], [], false, 0, 1⟩

/-- Concrete note B of the ordering example: pinned, updatedAt T0 = 0. -/
def noteB : Note := ⟨2, [], [], [], true, 0, 0⟩

/-- Concrete note C of the ordering example: pinned, updatedAt T2 = 2. -/
def noteC : Note := ⟨3, [], [], [], true, 0, 2⟩

/-- A concrete state with the delete dialog open and a candidate bound. -/
def sampleDeleteState : AppState :=
  { openDialog := false, newNote := ⟨[], [], []⟩, editingNoteId := none,
    deleteDialogOpen := true, noteToDelete := some noteA }

/-- A concrete note whose title contains "dota" up to case. -/
def noteD : Note := ⟨4, "Dota 2 build".toList, "mid lane".toList,
  ["gaming".toList], false, 0, 4⟩

/-- A concrete note matching no query about dota. -/
def noteE : Note := ⟨5, "Groceries".toList, "milk".toList,
  ["errand".toList], false, 0, 5⟩

/-- A concrete note with two normalized tags, for the edit round-trip. -/
def noteT : Note := ⟨7, "t".toList, [], ["gaming".toList, "dota".toList],
  false, 0, 0⟩

/-- A concrete editor state whose title is whitespace only. -/
def sampleEmptyTitleState : AppState :=
  { openDialog := true, newNote := ⟨"   ".toList, "some body".toList, "A,b".toList⟩,
    editingNoteId := none, deleteDialogOpen := false, noteToDelete := none }

/-- A concrete editor state with a valid title and whitespace-only body. -/
def sampleSaveState : AppState :=
  { openDialog := true, newNote := ⟨"Title".toList, "   ".toList, "a, b".toList⟩,
    editingNoteId := some 9, deleteDialogOpen := false, noteToDelete := none }

/-- A concrete state with all dialogs closed. -/
def blankState : AppState :=
  { openDialog := false, newNote := ⟨[], [], []⟩, editingNoteId := none,
    deleteDialogOpen := false, noteToDelete := none }

/-! ## Helper lemmas -/

lemma dropWhile_ws_cons_space (s : JSStr) :
    List.dropWhile Char.isWhitespace (' ' :: s) = List.dropWhile Char.isWhitespace s := by
  rw [List.dropWhile_cons, if_pos (by decide)]

lemma trim_cons_space (s : JSStr) : trim (' ' :: s) = trim s := by
  unfold trim
  rw [dropWhile_ws_cons_space]

lemma trim_eq_nil_of_all_ws {s : JSStr} (h : ∀ c ∈ s, Char.isWhitespace c) :
    trim s = [] := by
  unfold trim
  rw [List.dropWhile_eq_nil_iff.mpr h]
  simp

lemma splitComma_ne_nil (s : JSStr) : splitComma s ≠ [] := by
  induction s with
  | nil => simp [splitComma]
  | cons c rest ih =>
    simp only [splitComma]
    split
    · exact List.cons_ne_nil _ _
    · rcases hs : splitComma rest with _ | ⟨a, as⟩ <;> simp [hs]

lemma splitComma_comma_cons (r : JSStr) :
    splitComma (',' :: r) = [] :: splitComma r := by
  simp [splitComma]

lemma splitComma_cons_ne {c : Char} (r : JSStr) (hc : ¬ c = ',') {a : JSStr}
    {as : List JSStr} (h : splitComma r = a :: as) :
    splitComma (c :: r) = (c :: a) :: as := by
  simp only [splitComma]
  rw [if_neg hc, h]

lemma splitComma_append (t r : JSStr) (h : ',' ∉ t) :
    splitComma (t ++ r) = (t ++ (splitComma r).headI) :: (splitComma r).tail := by
  induction t with
  | nil =>
    rcases hr : splitComma r with _ | ⟨a, as⟩
    · exact absurd hr (splitComma_ne_nil r)
    · simp [hr]
  | cons c t ih =>
    have hc : ¬ c = ',' := fun e => h (e ▸ List.mem_cons_self c t)
    have ht : ',' ∉ t := fun m => h (List.mem_cons_of_mem _ m)
    rw [List.cons_append, splitComma_cons_ne (t ++ r) hc (ih ht), List.cons_append]

lemma splitComma_joinCommaSpace (t : JSStr) (ts : List JSStr)
    (h : ∀ u ∈ t :: ts, ',' ∉ u) :
    splitComma (joinCommaSpace (t :: ts)) = t :: ts.map (fun u => ' ' :: u) := by
  induction ts generalizing t with
  | nil =>
    have ht : ',' ∉ t := h t (List.mem_cons_self t [])
    have h2 := splitComma_append t [] ht
    simp only [List.append_nil] at h2
    simpa [splitComma] using h2
  | cons u ts ih =>
    have ht : ',' ∉ t := h t (List.mem_cons_self t (u :: ts))
    have hrest : ∀ v ∈ u :: ts, ',' ∉ v := fun v hv => h v (List.mem_cons_of_mem _ hv)
    have hu := ih u hrest
    have hjoin : joinCommaSpace (t :: u :: ts) =
        t ++ ',' :: ' ' :: joinCommaSpace (u :: ts) := rfl
    rw [hjoin, splitComma_append t _ ht, splitComma_comma_cons,
        splitComma_cons_ne _ (by decide) hu]
    simp

lemma decide_pos_length (t : JSStr) :
    decide (0 < t.length) = decide (t ≠ []) := by
  cases t <;> simp

lemma noteMatches_lower_congr (q q' : JSStr) (hq : toLower q = toLower q')
    (n : Note) : noteMatches q n = noteMatches q' n := by
  unfold noteMatches
  rw [hq]

/-! ## Claim theorems -/

/-- C1: for every note list and every query whose trimmed form is non-empty,
the filter returns exactly the notes whose lowercased title, body, or some
lowercased tag contains the lowercased query as a substring; the result is a
sublist of the input (relative order preserved), and filtering with "DOTA"
and with "dota" yields identical results. -/
theorem search_filter_characterization (notes : List Note) (q : JSStr)
    (h : trim q ≠ []) :
    filterNotes notes q = notes.filter (fun n => decide
        (toLower q <:+: toLower n.title ∨ toLower q <:+: toLower n.body ∨
         ∃ t ∈ n.tags, toLower q <:+: toLower t)) ∧
    List.Sublist (filterNotes notes q) notes ∧
    filterNotes notes ("DOTA".toList) = filterNotes notes ("dota".toList) := by
  refine ⟨?_, ?_, ?_⟩
  · unfold filterNotes
    rw [if_neg h]
    apply List.filter_congr
    intro n _
    rw [Bool.eq_iff_iff]
    simp [noteMatches, includes, List.any_eq_true, or_assoc]
  · unfold filterNotes
    rw [if_neg h]
    exact List.filter_sublist notes
  · unfold filterNotes
    rw [if_neg (by decide), if_neg (by decide)]
    exact List.filter_congr (fun n _ => noteMatches_lower_congr _ _ (by decide) n)

/-- Witness for C1 at a concrete two-note list and the query "DOTA". -/
theorem search_filter_characterization_witness :
    trim ("DOTA".toList) ≠ [] ∧
    (filterNotes [noteD, noteE] ("DOTA".toList) = [noteD, noteE].filter (fun n => decide
        (toLower ("DOTA".toList) <:+: toLower n.title ∨
         toLower ("DOTA".toList) <:+: toLower n.body ∨
         ∃ t ∈ n.tags, toLower ("DOTA".toList) <:+: toLower t)) ∧
     List.Sublist (filterNotes [noteD, noteE] ("DOTA".toList)) [noteD, noteE] ∧
     filterNotes [noteD, noteE] ("DOTA".toList) =
       filterNotes [noteD, noteE] ("dota".toList)) :=
  ⟨by decide, search_filter_characterization [noteD, noteE] ("DOTA".toList) (by decide)⟩

/-- C2: tag parsing splits on commas and returns the ordered trimmed,
lowercased, non-empty segments with no de-duplication; in particular
parsing "Gaming,  Dota ,, Design" yields ["gaming", "dota", "design"]. -/
theorem parseTags_spec :
    parseTags ("Gaming,  Dota ,, Design".toList) =
      ["gaming".toList, "dota".toList, "design".toList] ∧
    ∀ s : JSStr, parseTags s =
      ((splitComma s).map (fun seg => toLower (trim seg))).filter
        (fun seg => decide (seg ≠ [])) := by
  refine ⟨by decide, fun s => ?_⟩
  unfold parseTags
  exact List.filter_congr (fun t _ => decide_pos_length t)

/-- C3 counterexample: in the concrete state with the delete dialog open and
a candidate bound, a failing remote delete leaves the dialog open and the
candidate bound — refuting the claim that the dialog closes and the
candidate is cleared regardless of the outcome. -/
theorem delete_dialog_counterexample :
    ¬ ((handleDeleteNote sampleDeleteState false).1.deleteDialogOpen = false ∧
       (handleDeleteNote sampleDeleteState false).1.noteToDelete = none) := by
  decide

/-- C3 amended: when a candidate note is bound, confirming the delete always
issues the delete operation; on success the dialog closes and the candidate
is cleared, while on failure the error is only logged and the dialog state
is left entirely unchanged (the dialog stays open with the candidate still
bound). -/
theorem delete_dialog_amended (s : AppState) (n : Note)
    (h : s.noteToDelete = some n) :
    handleDeleteNote s true =
      ({ s with deleteDialogOpen := false, noteToDelete := none },
       [StoreOp.deleteNote n.id]) ∧
    handleDeleteNote s false = (s, [StoreOp.deleteNote n.id]) := by
  simp [handleDeleteNote, h]

/-- Witness for the amended C3 at the concrete delete-dialog state. -/
theorem delete_dialog_amended_witness :
    sampleDeleteState.noteToDelete = some noteA ∧
    (handleDeleteNote sampleDeleteState true =
      ({ sampleDeleteState with deleteDialogOpen := false, noteToDelete := none },
       [StoreOp.deleteNote noteA.id]) ∧
     handleDeleteNote sampleDeleteState false =
       (sampleDeleteState, [StoreOp.deleteNote noteA.id])) :=
  ⟨by decide, delete_dialog_amended sampleDeleteState noteA (by decide)⟩

/-- C4: filtering with a query that trims to the empty string returns the
full input list unchanged. -/
theorem filter_empty_query (notes : List Note) (q : JSStr)
    (h : trim q = []) : filterNotes notes q = notes := by
  simp [filterNotes, h]

/-- Witness for C4 with a whitespace-only query. -/
theorem filter_empty_query_witness :
    trim ("  ".toList) = [] ∧ filterNotes [noteA, noteB] ("  ".toList) = [noteA, noteB] :=
  ⟨by decide, filter_empty_query [noteA, noteB] ("  ".toList) (by decide)⟩

/-- C5: every delivered snapshot is sorted by the display key (pinned
descending, then updatedAt descending); the displayed list stays sorted
after filtering; and for the concrete notes A (unpinned, updatedAt 1),
B (pinned, updatedAt 0), C (pinned, updatedAt 2) the display order is
C, B, A. -/
theorem display_order :
    (∀ docs : List Note, List.Sorted displayLE (deliverSnapshot docs)) ∧
    (∀ (docs : List Note) (q : JSStr),
      List.Sorted displayLE (filterNotes (deliverSnapshot docs) q)) ∧
    deliverSnapshot [noteA, noteB, noteC] = [noteC, noteB, noteA] := by
  refine ⟨fun docs => List.sorted_insertionSort displayLE docs, ?_, by decide⟩
  intro docs q
  unfold filterNotes
  split
  · exact List.sorted_insertionSort displayLE docs
  · exact List.Pairwise.sublist (List.filter_sublist _)
      (List.sorted_insertionSort displayLE docs)

/-- C6: when the editor title trims to the empty string, saving is a no-op:
no store operation is issued and the whole dialog state — open flag, fields,
bound note identifier — is unchanged, whatever the remote outcome would
have been. -/
theorem save_empty_title_noop (s : AppState) (success : Bool)
    (h : trim s.newNote.title = []) :
    handleSaveNote s success = (s, []) := by
  simp [handleSaveNote, h]

/-- Witness for C6 at a concrete state whose title is whitespace only. -/
theorem save_empty_title_noop_witness :
    trim sampleEmptyTitleState.newNote.title = [] ∧
    handleSaveNote sampleEmptyTitleState true = (sampleEmptyTitleState, []) :=
  ⟨by decide, save_empty_title_noop sampleEmptyTitleState true (by decide)⟩

/-- C7: applying the update issued by handleTogglePin for note m leaves the
store the same length; the entry with m's id gets exactly its pinned field
set to the negation of m's pinned and its updatedAt refreshed (id, title,
body, tags, createdAt unchanged, as expressed by the record update); every
entry with a different id is completely unchanged at its position. -/
theorem togglePin_frame (store : List Note) (m : Note) (now j : Nat)
    (hj : j < store.length)
    (hj' : j < (applyOp store now 0 (handleTogglePin m.id m.pinned)).length) :
    (applyOp store now 0 (handleTogglePin m.id m.pinned)).length = store.length ∧
    (store[j].id = m.id →
      (applyOp store now 0 (handleTogglePin m.id m.pinned))[j] =
        { store[j] with pinned := !m.pinned, updatedAt := now }) ∧
    (store[j].id ≠ m.id →
      (applyOp store now 0 (handleTogglePin m.id m.pinned))[j] = store[j]) := by
  unfold handleTogglePin applyOp
  refine ⟨by simp, fun hid => ?_, fun hid => ?_⟩ <;>
    simp [List.getElem_map, hid]

/-- Witness for C7: toggling noteA's pin in a concrete two-note store. -/
theorem togglePin_frame_witness :
    0 < [noteA, noteB].length ∧
    0 < (applyOp [noteA, noteB] 5 0 (handleTogglePin noteA.id noteA.pinned)).length ∧
    ((applyOp [noteA, noteB] 5 0 (handleTogglePin noteA.id noteA.pinned)).length =
        [noteA, noteB].length ∧
     ([noteA, noteB][0].id = noteA.id →
       (applyOp [noteA, noteB] 5 0 (handleTogglePin noteA.id noteA.pinned))[0] =
         { [noteA, noteB][0] with pinned := !noteA.pinned, updatedAt := 5 }) ∧
     ([noteA, noteB][0].id ≠ noteA.id →
       (applyOp [noteA, noteB] 5 0 (handleTogglePin noteA.id noteA.pinned))[0] =
         [noteA, noteB][0])) :=
  ⟨by decide, by decide,
   togglePin_frame [noteA, noteB] noteA 5 0 (by decide) (by decide)⟩

/-- C8: when every search keystroke comes strictly less than the debounce
delay after the previous one, exactly one filter evaluation is triggered,
and it carries the value of the final keystroke (each keystroke cancels the
pending timer before scheduling its own). -/
theorem debounce_single_run (k : Nat × JSStr) (ks : List (Nat × JSStr))
    (h : List.Chain' (fun a b => b.1 < a.1 + debounceDelay) (k :: ks)) :
    debounceRuns (k :: ks) = [(ks.getLastD k).2] := by
  induction ks generalizing k with
  | nil =>
    obtain ⟨t, v⟩ := k
    simp [debounceRuns]
  | cons k2 ks ih =>
    obtain ⟨t1, v1⟩ := k
    obtain ⟨t2, v2⟩ := k2
    rw [List.chain'_cons] at h
    have h1 : t2 < t1 + debounceDelay := h.1
    have h2 := ih ⟨t2, v2⟩ h.2
    simp only [debounceRuns]
    rw [if_pos h1, h2, List.getLastD_cons]

/-- Witness for C8: three keystrokes 100 and 150 time units apart produce
one evaluation with the last value. -/
theorem debounce_single_run_witness :
    List.Chain' (fun a b => b.1 < a.1 + debounceDelay)
      ((0, "d".toList) :: [(100, "do".toList), (250, "dota".toList)]) ∧
    debounceRuns ((0, "d".toList) :: [(100, "do".toList), (250, "dota".toList)]) =
      [([(100, "do".toList), (250, "dota".toList)].getLastD (0, "d".toList)).2] :=
  ⟨List.chain'_cons.mpr ⟨by decide, List.chain'_cons.mpr
      ⟨by decide, List.chain'_singleton _⟩⟩,
   debounce_single_run (0, "d".toList)
    [(100, "do".toList), (250, "dota".toList)]
    (List.chain'_cons.mpr ⟨by decide, List.chain'_cons.mpr
      ⟨by decide, List.chain'_singleton _⟩⟩)⟩

/-- C9: for a note whose tags are each trimmed, lowercase, non-empty and
comma-free, opening the edit dialog (which prefills the tags field by
joining with a comma and space) and parsing the prefilled field yields the
original tag list: the round-trip is the identity. -/
theorem edit_roundtrip (s : AppState) (note : Note)
    (h : ∀ t ∈ note.tags, trim t = t ∧ toLower t = t ∧ t ≠ [] ∧ ',' ∉ t) :
    parseTags ((handleEditNote s note).newNote.tags) = note.tags := by
  have hTags : (handleEditNote s note).newNote.tags = joinCommaSpace note.tags := rfl
  rw [hTags]
  rcases hts : note.tags with _ | ⟨t, ts⟩
  · rfl
  · rw [hts] at h
    have hmem : t ∈ t :: ts := List.mem_cons_self t ts
    unfold parseTags
    rw [splitComma_joinCommaSpace t ts (fun u hu => (h u hu).2.2.2),
        List.map_cons, List.map_map]
    have hhead : toLower (trim t) = t := by rw [(h t hmem).1, (h t hmem).2.1]
    have htail : ts.map ((fun seg => toLower (trim seg)) ∘ (fun u => ' ' :: u)) = ts := by
      have hcong : ∀ u ∈ ts,
          ((fun seg => toLower (trim seg)) ∘ (fun u => ' ' :: u)) u = id u := by
        intro u hu
        have hu' := h u (List.mem_cons_of_mem _ hu)
        simp only [Function.comp_apply, id_eq]
        rw [trim_cons_space, hu'.1, hu'.2.1]
      rw [List.map_congr_left hcong, List.map_id]
    rw [hhead, htail]
    apply List.filter_eq_self.mpr
    intro a ha
    rw [decide_pos_length]
    exact decide_eq_true ((h a ha).2.2.1)

/-- Witness for C9 at a note with tags ["gaming", "dota"]. -/
theorem edit_roundtrip_witness :
    (∀ t ∈ noteT.tags, trim t = t ∧ toLower t = t ∧ t ≠ [] ∧ ',' ∉ t) ∧
    parseTags ((handleEditNote blankState noteT).newNote.tags) = noteT.tags :=
  ⟨by decide, edit_roundtrip blankState noteT (by decide)⟩

/-- C10: whenever the title guard passes, the single operation issued by
handleSaveNote — create or update alike — carries the trimmed body, and in
particular a whitespace-only body input is persisted as the empty string. -/
theorem save_body_trimmed (s : AppState) (success : Bool)
    (h : trim s.newNote.title ≠ []) :
    (handleSaveNote s success).2.map opBody = [some (trim s.newNote.body)] ∧
    ((∀ c ∈ s.newNote.body, Char.isWhitespace c) →
      (handleSaveNote s success).2.map opBody = [some ([] : JSStr)]) := by
  have h1 : (handleSaveNote s success).2.map opBody = [some (trim s.newNote.body)] := by
    unfold handleSaveNote
    rw [if_neg h]
    rcases hEd : s.editingNoteId with _ | noteId <;> rcases success <;>
      simp [opBody]
  exact ⟨h1, fun hws => by rw [h1, trim_eq_nil_of_all_ws hws]⟩

/-- Witness for C10 at a concrete editing state with a whitespace-only body. -/
theorem save_body_trimmed_witness :
    trim sampleSaveState.newNote.title ≠ [] ∧
    ((handleSaveNote sampleSaveState true).2.map opBody =
        [some (trim sampleSaveState.newNote.body)] ∧
     ((∀ c ∈ sampleSaveState.newNote.body, Char.isWhitespace c) →
       (handleSaveNote sampleSaveState true).2.map opBody = [some ([] : JSStr)])) :=
  ⟨by decide, save_body_trimmed sampleSaveState true (by decide)⟩

end SmartNotes
